import Mathlib

/-!
Shallow embedding of the detection service in `src/models/infer_server.py`.

The embedded fragment is the `/detect` request pipeline: image decoding
(modelled as a boolean flag, since the byte-level decoder is an external
library), routing between the COCO generalist model and the custom
"elevator" specialist model, the per-model confidence floors, the
threshold filter, the greedy same-label IoU suppression loop, and the
result assembly (`found` plus the surviving detection list).

Numeric values (confidences, box coordinates) are embedded as rationals;
the Python source computes with machine floats, and the properties proved
here are the exact-arithmetic semantics of the same expressions.  The two
YOLO models are external collaborators: each model's prediction call is an
input to `detect`, either an exception (`Except.error`) or the list of
detection records produced by the source's `extract` helper.
-/

/-- Axis-aligned box, the `[x1, y1, x2, y2]` list of the source. -/
structure Box where
  x1 : ℚ
  y1 : ℚ
  x2 : ℚ
  y2 : ℚ
  deriving DecidableEq, Repr

/-- One detection record, the dict `{"label": .., "conf": .., "box": ..}`
built by `extract` in `infer_server.py`. -/
structure Det where
  label : String
  conf : ℚ
  box : Box
  deriving DecidableEq, Repr

/-- `interArea` of `iou` (infer_server.py lines 116-122): clamped
intersection width times clamped intersection height. -/
def interArea (A B : Box) : ℚ :=
  max 0 (min A.x2 B.x2 - max A.x1 B.x1) * max 0 (min A.y2 B.y2 - max A.y1 B.y1)

/-- `boxAArea` / `boxBArea` of `iou` (lines 123-124). -/
def boxArea (A : Box) : ℚ :=
  max 0 (A.x2 - A.x1) * max 0 (A.y2 - A.y1)

/-- `iou` (infer_server.py lines 115-128): intersection over union, with
the union (`denom`) clamped case returning 0. -/
def iou (A B : Box) : ℚ :=
  let denom := boxArea A + boxArea B - interArea A B
  if denom ≤ 0 then 0 else interArea A B / denom

/-- Embedding of Python's `str.lower()` (ASCII case folding, applied
per character). -/
def lowerStr (s : String) : String := ⟨s.data.map Char.toLower⟩

/-- Embedding of Python's `str.strip()`: drop leading and trailing
whitespace. -/
def stripStr (s : String) : String :=
  ⟨((s.data.dropWhile Char.isWhitespace).reverse.dropWhile Char.isWhitespace).reverse⟩

/-- The suppression IoU threshold `iou_thresh = 0.5` (line 132). -/
def iouThresh : ℚ := 1 / 2

/-- The duplicate test of the suppression loop (lines 137-140): `d` is a
duplicate when some already-kept record has a case-insensitively equal
label and IoU with `d` strictly above the threshold. -/
def isDup (kept : List Det) (d : Det) : Bool :=
  kept.any fun k =>
    decide (lowerStr k.label = lowerStr d.label ∧ iouThresh < iou k.box d.box)

/-- The body of the suppression loop (lines 133-142), with `kept` the
accumulating list: each candidate is dropped when `isDup`, appended
otherwise. -/
def suppressAux (kept : List Det) : List Det → List Det
  | [] => kept
  | d :: ds => if isDup kept d then suppressAux kept ds else suppressAux (kept ++ [d]) ds

/-- Stable insertion of a record into a confidence-descending list: the
record goes in front of the first element whose confidence is at most its
own, so earlier arrivals win ties. -/
def insertDesc (d : Det) : List Det → List Det
  | [] => [d]
  | k :: ks => if k.conf ≤ d.conf then d :: k :: ks else k :: insertDesc d ks

/-- `dets.sort(key=conf, reverse=True)` (line 130): Python's sort is
stable, and any stable confidence-descending sort produces this list. -/
def sortDesc : List Det → List Det
  | [] => []
  | d :: ds => insertDesc d (sortDesc ds)

/-- The Suppressor (lines 130-143): sort by confidence descending, then
run the greedy same-label duplicate-suppression loop. -/
def suppress (l : List Det) : List Det :=
  suppressAux [] (sortDesc l)

/-- The effective confidence floor of a request for one model:
`max(req_conf, MODEL_CONF_THRESH)` (lines 69, 77, 110). -/
def effFloor (modelFloor reqConf : ℚ) : ℚ :=
  max reqConf modelFloor

/-- The record-level threshold test of line 111: `conf >= threshold`. -/
def passes (threshold : ℚ) (d : Det) : Bool :=
  decide (threshold ≤ d.conf)

/-- Lines 109-143 for one model's extracted detections: apply the
effective floor (line 111), then suppress duplicates. -/
def pipeline (modelFloor reqConf : ℚ) (raw : List Det) : List Det :=
  suppress (raw.filter (passes (effFloor modelFloor reqConf)))

/-- The request body `DetectReq`; the undecodable-payload case of lines
53-57 is embedded as `imageOk = false` (the decoder itself is an external
library). -/
structure DetectReq where
  imageOk : Bool
  target : String
  threshold : ℚ
  deriving Repr

/-- An HTTP error response: `client` is the 400 class, `server` the 500
class raised by `HTTPException` in `detect`. -/
inductive Err where
  | client : String → Err
  | server : String → Err
  deriving DecidableEq, Repr

/-- The success payload of `/detect` (lines 164-169), without the preview
image (pure rendering, external to the detection logic). -/
structure Response where
  found : Bool
  detections : List Det
  deriving DecidableEq, Repr

/-- The two configured detectors. -/
inductive DetectorId where
  | coco
  | custom
  deriving DecidableEq, Repr

/-- Result assembly (lines 144-145 and the return dict): `found` is true
when some surviving record's lowercased label equals the lowercased
target, and the detections are the suppressor output, unchanged. -/
def assemble (target : String) (kept : List Det) : Response :=
  { found := kept.any fun d => decide (lowerStr d.label = lowerStr target)
    detections := kept }

/-- The `/detect` handler (lines 51-169).  `cocoPredict` / `customPredict`
are the outcomes of the two models' prediction-plus-`extract` stages
(external model calls): an exception message or a record list.  The second
component of the result records which detectors were invoked, in order,
mirroring the control flow of lines 68-81. -/
def detect (cocoFloor customFloor : ℚ)
    (cocoPredict customPredict : Except String (List Det))
    (req : DetectReq) : Except Err Response × List DetectorId :=
  if req.imageOk = false then
    (Except.error (Err.client "invalid image_b64"), [])
  else if stripStr (lowerStr req.target) = "elevator" then
    match customPredict with
    | Except.error e =>
        (Except.error (Err.server ("custom model infer failed: " ++ e)), [DetectorId.custom])
    | Except.ok raw =>
        (Except.ok (assemble req.target (pipeline customFloor req.threshold raw)),
         [DetectorId.custom])
  else
    match cocoPredict with
    | Except.error e =>
        (Except.error (Err.server ("coco infer failed: " ++ e)), [DetectorId.coco])
    | Except.ok raw =>
        (Except.ok (assemble req.target (pipeline cocoFloor req.threshold raw)),
         [DetectorId.coco])

/-- The pairwise relation the suppression loop enforces: two records are
non-duplicates when they do not share a case-insensitive label with IoU
above the threshold. -/
def NonDup (a b : Det) : Prop :=
  ¬(lowerStr a.label = lowerStr b.label ∧ iouThresh < iou a.box b.box)

lemma isDup_eq_false_iff {kept : List Det} {d : Det} :
    isDup kept d = false ↔ ∀ k ∈ kept, NonDup k d := by
  simp [isDup, NonDup, List.any_eq_true]

lemma suppressAux_append_eq (kept xs ys : List Det) :
    suppressAux kept (xs ++ ys) = suppressAux (suppressAux kept xs) ys := by
  induction xs generalizing kept with
  | nil => simp [suppressAux]
  | cons d xs ih =>
      by_cases h : isDup kept d
      · simp [suppressAux, h, ih]
      · simp [suppressAux, h, ih]

lemma suppressAux_extends (kept ds : List Det) :
    ∃ sub, suppressAux kept ds = kept ++ sub ∧ List.Sublist sub ds := by
  induction ds generalizing kept with
  | nil => exact ⟨[], by simp [suppressAux], List.Sublist.refl _⟩
  | cons d ds ih =>
      by_cases h : isDup kept d
      · obtain ⟨sub, hs, hsub⟩ := ih kept
        exact ⟨sub, by simp [suppressAux, h, hs], hsub.cons d⟩
      · obtain ⟨sub, hs, hsub⟩ := ih (kept ++ [d])
        refine ⟨d :: sub, ?_, hsub.cons₂ d⟩
        simp [suppressAux, h, hs]

lemma suppressAux_length_le (kept ds : List Det) :
    (suppressAux kept ds).length ≤ kept.length + ds.length := by
  obtain ⟨sub, hs, hsub⟩ := suppressAux_extends kept ds
  have := hsub.length_le
  simp [hs]
  omega

lemma suppressAux_pairwise {kept : List Det} (ds : List Det)
    (h : List.Pairwise NonDup kept) :
    List.Pairwise NonDup (suppressAux kept ds) := by
  induction ds generalizing kept with
  | nil => simpa [suppressAux] using h
  | cons d ds ih =>
      by_cases hd : isDup kept d
      · simpa [suppressAux, hd] using ih h
      · have hkd : ∀ k ∈ kept, NonDup k d := isDup_eq_false_iff.mp (by simpa using hd)
        have h' : List.Pairwise NonDup (kept ++ [d]) := by
          refine List.pairwise_append.mpr ⟨h, by simp, ?_⟩
          intro a ha b hb
          simp at hb
          subst hb
          exact hkd a ha
        simpa [suppressAux, hd] using ih h'

lemma suppressAux_eq_self {kept rest : List Det}
    (h : List.Pairwise NonDup (kept ++ rest)) :
    suppressAux kept rest = kept ++ rest := by
  induction rest generalizing kept with
  | nil => simp [suppressAux]
  | cons d ds ih =>
      have hkd : ∀ k ∈ kept, NonDup k d := by
        intro k hk
        have := (List.pairwise_append.mp h).2.2
        exact this k hk d (by simp)
      have hdup : isDup kept d = false := isDup_eq_false_iff.mpr hkd
      have h' : List.Pairwise NonDup ((kept ++ [d]) ++ ds) := by
        simpa using h
      have := ih h'
      simp [suppressAux, hdup, this]

/-- Confidence-descending order between records. -/
def ConfGE (a b : Det) : Prop := b.conf ≤ a.conf

lemma insertDesc_length (d : Det) (l : List Det) :
    (insertDesc d l).length = l.length + 1 := by
  induction l with
  | nil => simp [insertDesc]
  | cons k ks ih =>
      by_cases h : k.conf ≤ d.conf
      · simp [insertDesc, h]
      · simp [insertDesc, h, ih]

lemma sortDesc_length (l : List Det) : (sortDesc l).length = l.length := by
  induction l with
  | nil => rfl
  | cons d ds ih => simp [sortDesc, insertDesc_length, ih]

lemma mem_insertDesc {a d : Det} {l : List Det} :
    a ∈ insertDesc d l ↔ a = d ∨ a ∈ l := by
  induction l with
  | nil => simp [insertDesc]
  | cons k ks ih =>
      by_cases h : k.conf ≤ d.conf
      · simp [insertDesc, h]
      · simp [insertDesc, h, ih]
        tauto

lemma mem_sortDesc {a : Det} {l : List Det} : a ∈ sortDesc l ↔ a ∈ l := by
  induction l with
  | nil => simp [sortDesc]
  | cons d ds ih => simp [sortDesc, mem_insertDesc, ih]

lemma insertDesc_sorted {d : Det} {l : List Det}
    (h : List.Pairwise ConfGE l) :
    List.Pairwise ConfGE (insertDesc d l) := by
  induction l with
  | nil => simp [insertDesc]
  | cons k ks ih =>
      rcases h with _ | ⟨hk, hks⟩
      by_cases hc : k.conf ≤ d.conf
      · rw [insertDesc, if_pos hc]
        refine List.Pairwise.cons ?_ (List.Pairwise.cons hk hks)
        intro b hb
        rcases (show b = k ∨ b ∈ ks by simpa using hb) with rfl | hb
        · exact hc
        · exact le_trans (hk b hb) hc
      · rw [insertDesc, if_neg hc]
        refine List.Pairwise.cons ?_ (ih hks)
        intro b hb
        rcases mem_insertDesc.mp hb with rfl | hb
        · exact le_of_lt (lt_of_not_le hc)
        · exact hk b hb

lemma sortDesc_sorted (l : List Det) : List.Pairwise ConfGE (sortDesc l) := by
  induction l with
  | nil => simp [sortDesc]
  | cons d ds ih => exact insertDesc_sorted ih

lemma sortDesc_eq_of_sorted {l : List Det} (h : List.Pairwise ConfGE l) :
    sortDesc l = l := by
  induction l with
  | nil => rfl
  | cons d ds ih =>
      rcases h with _ | ⟨hd, hds⟩
      rw [sortDesc, ih hds]
      cases ds with
      | nil => rfl
      | cons k ks =>
          rw [insertDesc, if_pos (show k.conf ≤ d.conf from hd k (by simp))]

lemma insertDesc_eq_cons {d : Det} {l : List Det}
    (h : ∀ c ∈ l, c.conf ≤ d.conf) : insertDesc d l = d :: l := by
  cases l with
  | nil => rfl
  | cons k ks => rw [insertDesc, if_pos (h k (by simp))]

lemma filter_passes_eq_nil {t : ℚ} {l : List Det}
    (h : ∀ c ∈ l, c.conf < t) : l.filter (passes t) = [] := by
  rw [List.filter_eq_nil_iff]
  intro c hc
  simp [passes]
  exact h c hc

lemma filter_insertDesc (t : ℚ) (d : Det) {l : List Det}
    (h : List.Pairwise ConfGE l) :
    (insertDesc d l).filter (passes t) =
      if passes t d then insertDesc d (l.filter (passes t))
      else l.filter (passes t) := by
  induction l with
  | nil =>
      by_cases hp : passes t d
      · simp [insertDesc, hp]
      · simp [insertDesc, hp]
  | cons k ks ih =>
      rcases h with _ | ⟨hk, hks⟩
      by_cases hc : k.conf ≤ d.conf
      · rw [insertDesc, if_pos hc]
        by_cases hp : passes t d
        · have hall : ∀ c ∈ (k :: ks).filter (passes t), c.conf ≤ d.conf := by
            intro c hcmem
            rcases (show c = k ∨ c ∈ ks by
                have := List.mem_of_mem_filter hcmem
                simpa using this) with rfl | hcks
            · exact hc
            · exact le_trans (hk c hcks) hc
          rw [if_pos hp, insertDesc_eq_cons hall]
          simp [List.filter, hp]
        · have hdk : d.conf < t := by
            simpa [passes, not_le] using hp
          have hnil : (d :: k :: ks).filter (passes t) = [] := by
            refine filter_passes_eq_nil ?_
            intro c hcmem
            rcases (show c = d ∨ c = k ∨ c ∈ ks by simpa using hcmem) with rfl | rfl | hcks
            · exact hdk
            · exact lt_of_le_of_lt hc hdk
            · exact lt_of_le_of_lt (le_trans (hk c hcks) hc) hdk
          have hnil2 : (k :: ks).filter (passes t) = [] := by
            refine filter_passes_eq_nil ?_
            intro c hcmem
            rcases (show c = k ∨ c ∈ ks by simpa using hcmem) with rfl | hcks
            · exact lt_of_le_of_lt hc hdk
            · exact lt_of_le_of_lt (le_trans (hk c hcks) hc) hdk
          rw [if_neg hp, hnil, hnil2]
      · rw [insertDesc, if_neg hc]
        have hdk : d.conf < k.conf := lt_of_not_le hc
        by_cases pk : passes t k
        · have h1 : (k :: insertDesc d ks).filter (passes t)
              = k :: (insertDesc d ks).filter (passes t) :=
            List.filter_cons_of_pos (by simpa using pk)
          have h2 : (k :: ks).filter (passes t) = k :: ks.filter (passes t) :=
            List.filter_cons_of_pos (by simpa using pk)
          rw [h1, h2, ih hks]
          by_cases hp : passes t d
          · rw [if_pos hp, if_pos hp, insertDesc, if_neg hc]
          · rw [if_neg hp, if_neg hp]
        · have hkt : k.conf < t := by simpa [passes, not_le] using pk
          have hp : ¬ passes t d := by
            simp only [passes, decide_eq_true_eq, not_le]
            exact lt_trans hdk hkt
          have h1 : (k :: insertDesc d ks).filter (passes t)
              = (insertDesc d ks).filter (passes t) :=
            List.filter_cons_of_neg (by simpa using pk)
          have h2 : (k :: ks).filter (passes t) = ks.filter (passes t) :=
            List.filter_cons_of_neg (by simpa using pk)
          rw [h1, h2, ih hks, if_neg hp]

lemma sortDesc_filter (t : ℚ) (l : List Det) :
    sortDesc (l.filter (passes t)) = (sortDesc l).filter (passes t) := by
  induction l with
  | nil => rfl
  | cons d ds ih =>
      rw [sortDesc, filter_insertDesc t d (sortDesc_sorted ds)]
      by_cases hp : passes t d
      · rw [List.filter_cons_of_pos (by simpa using hp), if_pos hp, sortDesc, ih]
      · rw [List.filter_cons_of_neg (by simpa using hp), if_neg hp, ih]

lemma filter_append_of_sorted (t : ℚ) {l : List Det}
    (h : List.Pairwise ConfGE l) :
    ∃ rest, l.filter (passes t) ++ rest = l := by
  induction l with
  | nil => exact ⟨[], rfl⟩
  | cons k ks ih =>
      rcases h with _ | ⟨hk, hks⟩
      by_cases pk : passes t k
      · obtain ⟨rest, hrest⟩ := ih hks
        refine ⟨rest, ?_⟩
        rw [List.filter_cons_of_pos (by simpa using pk)]
        simp [hrest]
      · have hkt : k.conf < t := by simpa [passes, not_le] using pk
        refine ⟨k :: ks, ?_⟩
        have : (k :: ks).filter (passes t) = [] := by
          refine filter_passes_eq_nil ?_
          intro c hcmem
          rcases (show c = k ∨ c ∈ ks by simpa using hcmem) with rfl | hcks
          · exact hkt
          · exact lt_of_le_of_lt (hk c hcks) hkt
        rw [this]
        rfl

lemma mem_suppress {d : Det} {l : List Det} (h : d ∈ suppress l) : d ∈ l := by
  obtain ⟨sub, hs, hsub⟩ := suppressAux_extends [] (sortDesc l)
  rw [suppress, hs] at h
  simp at h
  exact mem_sortDesc.mp (hsub.subset h)

/-- C1: for every input list of detection records, the Suppressor's output
is no longer than its input, and no two kept records share a
case-insensitively equal label while having IoU strictly above 0.5. -/
theorem C1_suppressor_invariant (l : List Det) :
    (suppress l).length ≤ l.length ∧ List.Pairwise NonDup (suppress l) := by
  constructor
  · have h := suppressAux_length_le [] (sortDesc l)
    simpa [suppress, sortDesc_length] using h
  · exact suppressAux_pairwise _ (by simp)

/-- C8: the Suppressor is idempotent: suppressing its own output returns
that output unchanged, in the same order. -/
theorem C8_suppress_idempotent (l : List Det) :
    suppress (suppress l) = suppress l := by
  obtain ⟨sub, hs, hsub⟩ := suppressAux_extends [] (sortDesc l)
  have hkeq : suppress l = sub := by simpa [suppress] using hs
  have hsorted : List.Pairwise ConfGE (suppress l) := by
    rw [hkeq]
    exact List.Pairwise.sublist hsub (sortDesc_sorted l)
  have hpair : List.Pairwise NonDup (suppress l) := suppressAux_pairwise _ (by simp)
  conv_lhs => rw [suppress, sortDesc_eq_of_sorted hsorted]
  exact suppressAux_eq_self (by simpa using hpair)

/-- C4 counterexample: the claim asserts `IoU(A,A) = 1` for every box with
`x1 ≤ x2` and `y1 ≤ y2`, but for a degenerate (zero-area) box the source's
`denom <= 0` guard makes `iou` return 0, not 1. -/
theorem C4_counterexample :
    (Box.mk 0 0 0 0).x1 ≤ (Box.mk 0 0 0 0).x2 ∧
    (Box.mk 0 0 0 0).y1 ≤ (Box.mk 0 0 0 0).y2 ∧
    iou (Box.mk 0 0 0 0) (Box.mk 0 0 0 0) ≠ 1 := by
  refine ⟨le_refl _, le_refl _, ?_⟩
  norm_num [iou, interArea, boxArea]

/-- C4 (amended): IoU is symmetric; `IoU(A,A) = 1` for every box of
positive area (`x1 < x2` and `y1 < y2`); IoU of two boxes whose
intersection is empty in either axis is 0; and whenever the union area is
at most 0, IoU is 0. -/
theorem C4_iou_algebra (A B : Box) :
    iou A B = iou B A ∧
    (A.x1 < A.x2 → A.y1 < A.y2 → iou A A = 1) ∧
    ((min A.x2 B.x2 ≤ max A.x1 B.x1 ∨ min A.y2 B.y2 ≤ max A.y1 B.y1) → iou A B = 0) ∧
    (boxArea A + boxArea B - interArea A B ≤ 0 → iou A B = 0) := by
  refine ⟨?_, ?_, ?_, ?_⟩
  · have hinter : interArea A B = interArea B A := by
      rw [interArea, interArea, min_comm A.x2, max_comm A.x1, min_comm A.y2, max_comm A.y1]
    simp only [iou, hinter, add_comm (boxArea A) (boxArea B)]
  · intro hx hy
    have hw : (0:ℚ) < A.x2 - A.x1 := by linarith
    have hh : (0:ℚ) < A.y2 - A.y1 := by linarith
    have hinter : interArea A A = (A.x2 - A.x1) * (A.y2 - A.y1) := by
      simp [interArea, le_of_lt hw, le_of_lt hh, max_eq_right]
    have harea : boxArea A = (A.x2 - A.x1) * (A.y2 - A.y1) := by
      simp [boxArea, le_of_lt hw, le_of_lt hh, max_eq_right]
    have hpos : (0:ℚ) < (A.x2 - A.x1) * (A.y2 - A.y1) := mul_pos hw hh
    rw [iou]
    simp only [hinter, harea]
    rw [if_neg (by linarith)]
    field_simp
  · intro h
    have hinter : interArea A B = 0 := by
      rcases h with h | h
      · simp [interArea, max_eq_left, sub_nonpos.mpr h]
      · simp [interArea, max_eq_left, sub_nonpos.mpr h]
    rw [iou]
    simp only [hinter]
    by_cases hd : boxArea A + boxArea B - 0 ≤ 0
    · rw [if_pos hd]
    · rw [if_neg hd, zero_div]
  · intro h
    rw [iou]
    exact if_pos h

/-- C4 witness: the amended statement applied at concrete boxes — a unit
square against itself, two disjoint squares, and a degenerate pair with
union area 0. -/
theorem C4_iou_algebra_witness :
    iou (Box.mk 0 0 2 2) (Box.mk 0 0 2 2) = iou (Box.mk 0 0 2 2) (Box.mk 0 0 2 2) ∧
    iou (Box.mk 0 0 2 2) (Box.mk 0 0 2 2) = 1 ∧
    iou (Box.mk 0 0 1 1) (Box.mk 5 5 6 6) = 0 ∧
    iou (Box.mk 0 0 0 0) (Box.mk 1 1 1 1) = 0 :=
  ⟨(C4_iou_algebra (Box.mk 0 0 2 2) (Box.mk 0 0 2 2)).1,
   (C4_iou_algebra (Box.mk 0 0 2 2) (Box.mk 0 0 2 2)).2.1 (by norm_num) (by norm_num),
   (C4_iou_algebra (Box.mk 0 0 1 1) (Box.mk 5 5 6 6)).2.2.1 (by norm_num),
   (C4_iou_algebra (Box.mk 0 0 0 0) (Box.mk 1 1 1 1)).2.2.2 (by norm_num [boxArea, interArea])⟩

lemma filter_filter_passes {e1 e2 : ℚ} (h : e1 ≤ e2) (l : List Det) :
    (l.filter (passes e1)).filter (passes e2) = l.filter (passes e2) := by
  induction l with
  | nil => rfl
  | cons d ds ih =>
      by_cases h2 : passes e2 d
      · have h1 : passes e1 d = true := by
          have := (show e2 ≤ d.conf by simpa [passes] using h2)
          simp [passes]
          linarith
        rw [List.filter_cons_of_pos (by simpa using h1),
            List.filter_cons_of_pos (by simpa using h2),
            List.filter_cons_of_pos (by simpa using h2), ih]
      · by_cases h1 : passes e1 d
        · rw [List.filter_cons_of_pos (by simpa using h1),
              List.filter_cons_of_neg (by simpa using h2),
              List.filter_cons_of_neg (by simpa using h2), ih]
        · rw [List.filter_cons_of_neg (by simpa using h1),
              List.filter_cons_of_neg (by simpa using h2), ih]

/-- C9: the threshold-then-suppress pipeline is monotone in the
caller-supplied floor: with the raw detections fixed, raising the caller
floor never increases the number of surviving records. -/
theorem C9_threshold_monotone (modelFloor t1 t2 : ℚ) (raw : List Det)
    (h : t1 ≤ t2) :
    (pipeline modelFloor t2 raw).length ≤ (pipeline modelFloor t1 raw).length := by
  have he : effFloor modelFloor t1 ≤ effFloor modelFloor t2 :=
    max_le_max h (le_refl modelFloor)
  have hff := filter_filter_passes he raw
  have hcomm := sortDesc_filter (effFloor modelFloor t2) (raw.filter (passes (effFloor modelFloor t1)))
  obtain ⟨rest, hrest⟩ :=
    filter_append_of_sorted (effFloor modelFloor t2)
      (sortDesc_sorted (raw.filter (passes (effFloor modelFloor t1))))
  have hstep : pipeline modelFloor t2 raw =
      suppressAux [] ((sortDesc (raw.filter (passes (effFloor modelFloor t1)))).filter
        (passes (effFloor modelFloor t2))) := by
    rw [pipeline, suppress, ← hff, hcomm]
  obtain ⟨sub, hs, _⟩ :=
    suppressAux_extends
      (suppressAux [] ((sortDesc (raw.filter (passes (effFloor modelFloor t1)))).filter
        (passes (effFloor modelFloor t2)))) rest
  have hsplit : pipeline modelFloor t1 raw =
      suppressAux [] ((sortDesc (raw.filter (passes (effFloor modelFloor t1)))).filter
        (passes (effFloor modelFloor t2)) ++ rest) := by
    rw [pipeline, suppress]
    exact congrArg (suppressAux []) hrest.symm
  rw [hstep, hsplit, suppressAux_append_eq, hs]
  simp

/-- C9 witness: a pair of floors 1/4 ≤ 3/4 on a two-record raw list. -/
theorem C9_threshold_monotone_witness :
    (pipeline (1/4) (3/4) [⟨"person", 9/10, ⟨0,0,10,10⟩⟩, ⟨"person", 1/2, ⟨50,50,60,60⟩⟩]).length ≤
    (pipeline (1/4) (1/4) [⟨"person", 9/10, ⟨0,0,10,10⟩⟩, ⟨"person", 1/2, ⟨50,50,60,60⟩⟩]).length :=
  C9_threshold_monotone (1/4) (1/4) (3/4) _ (by norm_num)

lemma mem_pipeline {d : Det} {f t : ℚ} {raw : List Det}
    (h : d ∈ pipeline f t raw) : d ∈ raw ∧ effFloor f t ≤ d.conf := by
  have hf : d ∈ raw.filter (passes (effFloor f t)) := mem_suppress h
  have := List.mem_filter.mp hf
  exact ⟨this.1, by simpa [passes] using this.2⟩

lemma pipeline_eq_nil_of_lt {f t : ℚ} {raw : List Det}
    (h : ∀ d ∈ raw, d.conf < t) : pipeline f t raw = [] := by
  have hnil : raw.filter (passes (effFloor f t)) = [] := by
    refine filter_passes_eq_nil ?_
    intro c hc
    exact lt_of_lt_of_le (h c hc) (le_max_left t f)
  rw [pipeline, hnil]
  rfl

/-- C2: the effective floor applied to the active detector's output is
`max(detector default floor, caller floor)`; every returned record clears
it; and a caller floor above every raw confidence yields an empty, still
successful response. -/
theorem C2_effective_floor (cocoFloor customFloor : ℚ)
    (cocoPredict customPredict : Except String (List Det))
    (req : DetectReq) (raw : List Det)
    (himg : req.imageOk = true)
    (hpred : (if stripStr (lowerStr req.target) = "elevator" then customPredict else cocoPredict)
      = Except.ok raw) :
    ∃ r : Response,
      (detect cocoFloor customFloor cocoPredict customPredict req).1 = Except.ok r ∧
      effFloor (if stripStr (lowerStr req.target) = "elevator" then customFloor else cocoFloor)
          req.threshold
        = max (if stripStr (lowerStr req.target) = "elevator" then customFloor else cocoFloor)
            req.threshold ∧
      (∀ d ∈ r.detections,
        effFloor (if stripStr (lowerStr req.target) = "elevator" then customFloor else cocoFloor)
          req.threshold ≤ d.conf) ∧
      ((∀ d ∈ raw, d.conf < req.threshold) → r.detections = []) := by
  by_cases hel : stripStr (lowerStr req.target) = "elevator"
  · rw [if_pos hel] at hpred
    refine ⟨assemble req.target (pipeline customFloor req.threshold raw), ?_, ?_, ?_, ?_⟩
    · simp [detect, himg, hel, hpred]
    · rw [if_pos hel, effFloor, max_comm]
    · intro d hd
      rw [if_pos hel]
      exact (mem_pipeline (by simpa [assemble] using hd)).2
    · intro hall
      simp [assemble, pipeline_eq_nil_of_lt hall]
  · rw [if_neg hel] at hpred
    refine ⟨assemble req.target (pipeline cocoFloor req.threshold raw), ?_, ?_, ?_, ?_⟩
    · simp [detect, himg, hel, hpred]
    · rw [if_neg hel, effFloor, max_comm]
    · intro d hd
      rw [if_neg hel]
      exact (mem_pipeline (by simpa [assemble] using hd)).2
    · intro hall
      simp [assemble, pipeline_eq_nil_of_lt hall]

/-- C2 witness: a caller floor of 3/4 against a single "person" raw
detection of confidence 1/2 routed to the COCO model: the response
succeeds and is empty. -/
theorem C2_effective_floor_witness :
    ∃ r : Response,
      (detect (1/4) (1/4) (Except.ok [⟨"person", 1/2, ⟨0,0,10,10⟩⟩]) (Except.ok [])
        ⟨true, "person", 3/4⟩).1 = Except.ok r ∧
      effFloor (if stripStr (lowerStr "person") = "elevator" then (1/4 : ℚ) else 1/4)
          (3/4)
        = max (if stripStr (lowerStr "person") = "elevator" then (1/4 : ℚ) else 1/4)
            (3/4) ∧
      (∀ d ∈ r.detections,
        effFloor (if stripStr (lowerStr "person") = "elevator" then (1/4 : ℚ) else 1/4)
          (3/4) ≤ d.conf) ∧
      ((∀ d ∈ [(⟨"person", 1/2, ⟨0,0,10,10⟩⟩ : Det)], d.conf < (3/4 : ℚ)) → r.detections = []) :=
  C2_effective_floor (1/4) (1/4) (Except.ok [⟨"person", 1/2, ⟨0,0,10,10⟩⟩]) (Except.ok [])
    ⟨true, "person", 3/4⟩ [⟨"person", 1/2, ⟨0,0,10,10⟩⟩] rfl (by rw [if_neg (by decide)])

/-- C3: the response's `found` is true exactly when some record of the
returned list matches the target case-insensitively, and the returned
list is the Suppressor's output for the active detector, unchanged. -/
theorem C3_found_iff (cocoFloor customFloor : ℚ)
    (cocoPredict customPredict : Except String (List Det))
    (req : DetectReq) (raw : List Det)
    (himg : req.imageOk = true)
    (hpred : (if stripStr (lowerStr req.target) = "elevator" then customPredict else cocoPredict)
      = Except.ok raw) :
    ∃ r : Response,
      (detect cocoFloor customFloor cocoPredict customPredict req).1 = Except.ok r ∧
      r.detections =
        pipeline (if stripStr (lowerStr req.target) = "elevator" then customFloor else cocoFloor)
          req.threshold raw ∧
      (r.found = true ↔ ∃ d ∈ r.detections, lowerStr d.label = lowerStr req.target) := by
  by_cases hel : stripStr (lowerStr req.target) = "elevator"
  · rw [if_pos hel] at hpred
    refine ⟨assemble req.target (pipeline customFloor req.threshold raw), ?_, ?_, ?_⟩
    · simp [detect, himg, hel, hpred]
    · rw [if_pos hel]
      rfl
    · simp [assemble, List.any_eq_true]
  · rw [if_neg hel] at hpred
    refine ⟨assemble req.target (pipeline cocoFloor req.threshold raw), ?_, ?_, ?_⟩
    · simp [detect, himg, hel, hpred]
    · rw [if_neg hel]
      rfl
    · simp [assemble, List.any_eq_true]

/-- C3 witness: a request for "Elevator" routed to the specialist with one
surviving record labelled "elevator". -/
theorem C3_found_iff_witness :
    ∃ r : Response,
      (detect (1/4) (1/4) (Except.ok []) (Except.ok [⟨"elevator", 9/10, ⟨0,0,10,10⟩⟩])
        ⟨true, "Elevator", 1/4⟩).1 = Except.ok r ∧
      r.detections =
        pipeline (if stripStr (lowerStr "Elevator") = "elevator" then (1/4 : ℚ) else 1/4)
          (1/4) [⟨"elevator", 9/10, ⟨0,0,10,10⟩⟩] ∧
      (r.found = true ↔ ∃ d ∈ r.detections, lowerStr d.label = lowerStr "Elevator") :=
  C3_found_iff (1/4) (1/4) (Except.ok []) (Except.ok [⟨"elevator", 9/10, ⟨0,0,10,10⟩⟩])
    ⟨true, "Elevator", 1/4⟩ [⟨"elevator", 9/10, ⟨0,0,10,10⟩⟩] rfl (by rw [if_pos (by decide)])

/-- C5 counterexample: a request whose single activated detector (the
specialist, for target "elevator") raises during inference does not
degrade to an empty contribution — the whole request fails with a
server-side error. -/
theorem C5_counterexample :
    detect (1/4) (1/4) (Except.ok []) (Except.error "boom") ⟨true, "elevator", 1/4⟩ =
      (Except.error (Err.server "custom model infer failed: boom"), [DetectorId.custom]) := by
  rfl

/-- C5 (amended): exactly one detector is activated per request, and an
inference exception in it fails the whole request with a server-side error
naming the failing detector; the request succeeds whenever its single
active detector succeeds.  (Since exactly one detector is active, the
failing case is precisely the case in which all active detectors fail.) -/
theorem C5_failure_behavior (cocoFloor customFloor : ℚ)
    (cocoPredict customPredict : Except String (List Det))
    (req : DetectReq) (himg : req.imageOk = true) :
    (stripStr (lowerStr req.target) = "elevator" →
      ∀ e, customPredict = Except.error e →
        (detect cocoFloor customFloor cocoPredict customPredict req).1 =
          Except.error (Err.server ("custom model infer failed: " ++ e))) ∧
    (stripStr (lowerStr req.target) ≠ "elevator" →
      ∀ e, cocoPredict = Except.error e →
        (detect cocoFloor customFloor cocoPredict customPredict req).1 =
          Except.error (Err.server ("coco infer failed: " ++ e))) ∧
    (∀ raw,
      (if stripStr (lowerStr req.target) = "elevator" then customPredict else cocoPredict)
        = Except.ok raw →
      ∃ r, (detect cocoFloor customFloor cocoPredict customPredict req).1 = Except.ok r) ∧
    (detect cocoFloor customFloor cocoPredict customPredict req).2.length = 1 := by
  by_cases hel : stripStr (lowerStr req.target) = "elevator"
  · refine ⟨?_, fun h => absurd hel h, ?_, ?_⟩
    · intro _ e he
      simp [detect, himg, hel, he]
    · intro raw hok
      rw [if_pos hel] at hok
      exact ⟨assemble req.target (pipeline customFloor req.threshold raw),
        by simp [detect, himg, hel, hok]⟩
    · cases customPredict with
      | error e => simp [detect, himg, hel]
      | ok raw => simp [detect, himg, hel]
  · refine ⟨fun h => absurd h hel, ?_, ?_, ?_⟩
    · intro _ e he
      simp [detect, himg, hel, he]
    · intro raw hok
      rw [if_neg hel] at hok
      exact ⟨assemble req.target (pipeline cocoFloor req.threshold raw),
        by simp [detect, himg, hel, hok]⟩
    · cases cocoPredict with
      | error e => simp [detect, himg, hel]
      | ok raw => simp [detect, himg, hel]

/-- C5 witness: the amended statement at a concrete failing specialist. -/
theorem C5_failure_behavior_witness :
    (detect (1/4) (1/4) (Except.ok []) (Except.error "crash") ⟨true, "Elevator", 1/4⟩).1 =
      Except.error (Err.server ("custom model infer failed: " ++ "crash")) :=
  (C5_failure_behavior (1/4) (1/4) (Except.ok []) (Except.error "crash")
    ⟨true, "Elevator", 1/4⟩ rfl).1 (by decide) "crash" rfl

/-- C6 counterexample: a valid-image request with an empty target label is
not rejected — the generalist detector is invoked and the request
succeeds. -/
theorem C6_counterexample :
    detect (1/4) (1/4) (Except.ok []) (Except.ok []) ⟨true, "", 1/4⟩ =
      (Except.ok ⟨false, []⟩, [DetectorId.coco]) := by
  rfl

/-- C6 (amended): a malformed image payload is rejected with a client-side
error before any detector is invoked; an empty target label, however, is
not rejected — it routes to the generalist detector and the request never
yields a client-side error for that reason. -/
theorem C6_input_rejection (cocoFloor customFloor : ℚ)
    (cocoPredict customPredict : Except String (List Det)) (req : DetectReq) :
    (req.imageOk = false →
      detect cocoFloor customFloor cocoPredict customPredict req =
        (Except.error (Err.client "invalid image_b64"), [])) ∧
    (req.imageOk = true → req.target = "" →
      (detect cocoFloor customFloor cocoPredict customPredict req).2 = [DetectorId.coco] ∧
      ∀ msg, (detect cocoFloor customFloor cocoPredict customPredict req).1 ≠
        Except.error (Err.client msg)) := by
  constructor
  · intro himg
    simp [detect, himg]
  · intro himg htgt
    have hel : ¬ stripStr (lowerStr req.target) = "elevator" := by
      rw [htgt]
      decide
    cases cocoPredict with
    | error e =>
        refine ⟨by simp [detect, himg, hel], ?_⟩
        intro msg
        simp [detect, himg, hel]
    | ok raw =>
        refine ⟨by simp [detect, himg, hel], ?_⟩
        intro msg
        simp [detect, himg, hel]

/-- C6 witness: the amended statement at a malformed-image request and at
an empty-target request. -/
theorem C6_input_rejection_witness :
    detect (1/4) (1/4) (Except.ok []) (Except.ok []) ⟨false, "cat", 1/4⟩ =
      (Except.error (Err.client "invalid image_b64"), []) ∧
    ((detect (1/4) (1/4) (Except.ok []) (Except.ok []) ⟨true, "", 1/4⟩).2 = [DetectorId.coco] ∧
     ∀ msg, (detect (1/4) (1/4) (Except.ok []) (Except.ok []) ⟨true, "", 1/4⟩).1 ≠
       Except.error (Err.client msg)) :=
  ⟨(C6_input_rejection (1/4) (1/4) (Except.ok []) (Except.ok []) ⟨false, "cat", 1/4⟩).1 rfl,
   (C6_input_rejection (1/4) (1/4) (Except.ok []) (Except.ok []) ⟨true, "", 1/4⟩).2 rfl rfl⟩

/-- C7 counterexample: for the target " elevator" the specialist is
activated by the source (which strips whitespace before comparing), yet
the target is not case-insensitively equal to the specialty "elevator",
contradicting the claimed activation condition. -/
theorem C7_counterexample :
    (detect (1/4) (1/4) (Except.ok []) (Except.ok []) ⟨true, " elevator", 1/4⟩).2 =
      [DetectorId.custom] ∧
    lowerStr " elevator" ≠ lowerStr "elevator" := by
  exact ⟨rfl, by decide⟩

/-- C7 (amended): routing is a deterministic function of the target label:
the specialist is activated exactly when the lower-cased,
whitespace-stripped target equals "elevator", the generalist exactly
otherwise, and the two are never both activated. -/
theorem C7_routing (cocoFloor customFloor : ℚ)
    (cocoPredict customPredict : Except String (List Det))
    (req : DetectReq) (himg : req.imageOk = true) :
    (detect cocoFloor customFloor cocoPredict customPredict req).2 =
      (if stripStr (lowerStr req.target) = "elevator"
        then [DetectorId.custom] else [DetectorId.coco]) ∧
    (∀ (cocoFloor2 customFloor2 : ℚ)
        (cocoPredict2 customPredict2 : Except String (List Det)) (req2 : DetectReq),
      req2.imageOk = true → req2.target = req.target →
      (detect cocoFloor2 customFloor2 cocoPredict2 customPredict2 req2).2 =
        (detect cocoFloor customFloor cocoPredict customPredict req).2) := by
  have hmain : ∀ (f1 f2 : ℚ) (p1 p2 : Except String (List Det)) (r : DetectReq),
      r.imageOk = true →
      (detect f1 f2 p1 p2 r).2 =
        (if stripStr (lowerStr r.target) = "elevator"
          then [DetectorId.custom] else [DetectorId.coco]) := by
    intro f1 f2 p1 p2 r himg2
    by_cases hel : stripStr (lowerStr r.target) = "elevator"
    · cases p2 with
      | error e => simp [detect, himg2, hel]
      | ok raw => simp [detect, himg2, hel]
    · cases p1 with
      | error e => simp [detect, himg2, hel]
      | ok raw => simp [detect, himg2, hel]
  refine ⟨hmain _ _ _ _ _ himg, ?_⟩
  intro f1 f2 p1 p2 req2 himg2 htgt
  rw [hmain _ _ _ _ _ himg2, hmain _ _ _ _ _ himg, htgt]

/-- C7 witness: the amended statement at a concrete "Person" request. -/
theorem C7_routing_witness :
    (detect (1/4) (1/4) (Except.ok []) (Except.ok []) ⟨true, "Person", 1/4⟩).2 =
      (if stripStr (lowerStr "Person") = "elevator"
        then [DetectorId.custom] else [DetectorId.coco]) :=
  (C7_routing (1/4) (1/4) (Except.ok []) (Except.ok []) ⟨true, "Person", 1/4⟩ rfl).1

/-- C10: exactly one detector runs per request — the custom model exactly
when the lower-cased, whitespace-stripped target equals "elevator", the
COCO model otherwise — and every record of a successful response is a
member of that single detector's raw output, unmodified. -/
theorem C10_single_detector (cocoFloor customFloor : ℚ)
    (cocoPredict customPredict : Except String (List Det))
    (req : DetectReq) (himg : req.imageOk = true) :
    ((detect cocoFloor customFloor cocoPredict customPredict req).2 = [DetectorId.custom] ↔
      stripStr (lowerStr req.target) = "elevator") ∧
    ((detect cocoFloor customFloor cocoPredict customPredict req).2 = [DetectorId.coco] ↔
      ¬ stripStr (lowerStr req.target) = "elevator") ∧
    (∀ raw r,
      (if stripStr (lowerStr req.target) = "elevator" then customPredict else cocoPredict)
        = Except.ok raw →
      (detect cocoFloor customFloor cocoPredict customPredict req).1 = Except.ok r →
      ∀ d ∈ r.detections, d ∈ raw) := by
  by_cases hel : stripStr (lowerStr req.target) = "elevator"
  · have hsnd : (detect cocoFloor customFloor cocoPredict customPredict req).2 =
        [DetectorId.custom] := by
      cases customPredict with
      | error e => simp [detect, himg, hel]
      | ok raw => simp [detect, himg, hel]
    refine ⟨by simp [hsnd, hel], by simp [hsnd, hel], ?_⟩
    intro raw r hok hr hd hmem
    rw [if_pos hel] at hok
    have : r = assemble req.target (pipeline customFloor req.threshold raw) := by
      have := hr.symm.trans (by simp [detect, himg, hel, hok] :
        (detect cocoFloor customFloor cocoPredict customPredict req).1 =
          Except.ok (assemble req.target (pipeline customFloor req.threshold raw)))
      exact (Except.ok.injEq _ _).mp this
    subst this
    exact (mem_pipeline (by simpa [assemble] using hmem)).1
  · have hsnd : (detect cocoFloor customFloor cocoPredict customPredict req).2 =
        [DetectorId.coco] := by
      cases cocoPredict with
      | error e => simp [detect, himg, hel]
      | ok raw => simp [detect, himg, hel]
    refine ⟨by simp [hsnd, hel], by simp [hsnd, hel], ?_⟩
    intro raw r hok hr hd hmem
    rw [if_neg hel] at hok
    have : r = assemble req.target (pipeline cocoFloor req.threshold raw) := by
      have := hr.symm.trans (by simp [detect, himg, hel, hok] :
        (detect cocoFloor customFloor cocoPredict customPredict req).1 =
          Except.ok (assemble req.target (pipeline cocoFloor req.threshold raw)))
      exact (Except.ok.injEq _ _).mp this
    subst this
    exact (mem_pipeline (by simpa [assemble] using hmem)).1

/-- C10 witness: a concrete "cup" request routed to the COCO model, whose
single raw record survives and is a member of the raw output. -/
theorem C10_single_detector_witness :
    ((detect (1/4) (1/4) (Except.ok [⟨"cup", 9/10, ⟨0,0,10,10⟩⟩]) (Except.ok [])
        ⟨true, "cup", 1/4⟩).2 = [DetectorId.custom] ↔
      stripStr (lowerStr "cup") = "elevator") ∧
    ((detect (1/4) (1/4) (Except.ok [⟨"cup", 9/10, ⟨0,0,10,10⟩⟩]) (Except.ok [])
        ⟨true, "cup", 1/4⟩).2 = [DetectorId.coco] ↔
      ¬ stripStr (lowerStr "cup") = "elevator") ∧
    (∀ raw r,
      (if stripStr (lowerStr "cup") = "elevator"
        then (Except.ok [] : Except String (List Det))
        else Except.ok [⟨"cup", 9/10, ⟨0,0,10,10⟩⟩]) = Except.ok raw →
      (detect (1/4) (1/4) (Except.ok [⟨"cup", 9/10, ⟨0,0,10,10⟩⟩]) (Except.ok [])
        ⟨true, "cup", 1/4⟩).1 = Except.ok r →
      ∀ d ∈ r.detections, d ∈ raw) :=
  C10_single_detector (1/4) (1/4) (Except.ok [⟨"cup", 9/10, ⟨0,0,10,10⟩⟩]) (Except.ok [])
    ⟨true, "cup", 1/4⟩ rfl
